import Mathlib

/-
Shallow embedding of the gst-soup-server-example repository
(gst-soup-server-example.cpp and scope_guard.hpp).

The embedding models:
  * scope_guard.hpp: the dismiss / move / destruct behaviour of
    detail::scope_guard_impl, with the dismissed flag made explicit;
  * the std::stoi call in main (port validation) as cppStoi, together
    with the exit-code structure of main as mainExit;
  * http_stream_pipeline as a state machine Model over an association
    list of clients (GSocket keys mapped to GIOStream values, both
    rendered as Nat), the set of sockets attached to the
    multisocketsink, the pipeline state, and the number of pending
    StopPipeline bus messages.  Each operation additionally returns the
    ordered list of externally visible actions it performs, so that
    ordering claims (insert before play, pause before clear) can be
    stated directly.
-/

namespace GstSoup

/- ===================== scope_guard.hpp ===================== -/

/-- State of a detail::scope_guard_impl: just the m_dismissed flag
(scope_guard.hpp line 53); the stored function is passed separately at
destruction time. -/
structure ScopeGuard where
  dismissed : Bool
deriving DecidableEq

/-- Constructor (scope_guard.hpp lines 14-19): m_dismissed starts false. -/
def mkGuard : ScopeGuard := ⟨false⟩

/-- dismiss() (scope_guard.hpp lines 42-45): sets m_dismissed to true. -/
def ScopeGuard.dismiss (_ : ScopeGuard) : ScopeGuard := ⟨true⟩

/-- Move constructor (scope_guard.hpp lines 35-40): the target copies the
dismissed flag of the source and the source is marked dismissed.  Returns
(target, source after the move). -/
def ScopeGuard.moveFrom (g : ScopeGuard) : ScopeGuard × ScopeGuard :=
  (⟨g.dismissed⟩, ⟨true⟩)

/-- Destructor (scope_guard.hpp lines 21-33): runs the stored function if
and only if not dismissed, and catches every exception it throws.  The
outcome of the stored function is passed in as f; the result is the pair
(the function ran, an exception propagated out of the destructor). -/
def ScopeGuard.destruct {E : Type} (g : ScopeGuard) (f : Except E Unit) :
    Bool × Bool :=
  if g.dismissed then
    (false, false)
  else
    match f with
    | Except.ok _ => (true, false)
    | Except.error _ => (true, false)

/-- Operations that can be applied to a live guard before destruction:
a dismiss() call or being moved from. -/
inductive GOp
  | dis
  | movedFrom
deriving DecidableEq

/-- Apply a history of operations to a guard. -/
def applyOps (g : ScopeGuard) : List GOp → ScopeGuard
  | [] => g
  | GOp.dis :: r => applyOps g.dismiss r
  | GOp.movedFrom :: r => applyOps g.moveFrom.2 r

/- ===================== std::stoi model and main ===================== -/

/-- Decimal digit test, matching what strtol (backing std::stoi) accepts
as a digit in base 10: ASCII 48..57. -/
def isDigit (c : Char) : Bool := 48 ≤ c.toNat && c.toNat ≤ 57

/-- Whitespace skipped by strtol before the number: space, tab, newline,
vertical tab, form feed, carriage return. -/
def isSpace (c : Char) : Bool :=
  c.toNat = 32 || c.toNat = 9 || c.toNat = 10 ||
  c.toNat = 11 || c.toNat = 12 || c.toNat = 13

/-- Numeric value of a digit character. -/
def digitVal (c : Char) : Nat := c.toNat - 48

/-- Accumulate the value of a digit run, most significant digit first. -/
def natOfDigits : List Char → Nat → Nat
  | [], acc => acc
  | c :: r, acc => natOfDigits r (acc * 10 + digitVal c)

/-- Digit-run part of the stoi model: take the leading digits, fail if
there are none (std::invalid_argument) or the value leaves the int range
(std::out_of_range); otherwise return the parsed value.  Trailing
non-digit characters are ignored, as strtol does. -/
def stoiDigits (cs : List Char) (neg : Bool) : Option Int :=
  let ds := cs.takeWhile isDigit
  if ds = [] then none
  else
    let n := natOfDigits ds 0
    if neg then
      if n ≤ 2147483648 then some (-(n : Int)) else none
    else
      if n ≤ 2147483647 then some ((n : Int)) else none

/-- Model of std::stoi(argv[1]) from main (gst-soup-server-example.cpp
line 478): skip leading whitespace, an optional sign (ASCII 45 is the
minus sign, ASCII 43 the plus sign), then require at least one digit;
none stands for a thrown exception (caught at lines 480-484). -/
def cppStoi (s : String) : Option Int :=
  match s.data.dropWhile isSpace with
  | [] => none
  | c :: r =>
    if c.toNat = 45 then stoiDigits r true
    else if c.toNat = 43 then stoiDigits r false
    else stoiDigits (c :: r) false

/-- Spec-side predicate, following the spec words "listening port
(integer, validated)": the argument is a valid integer when it is an
optional sign followed by one or more decimal digits and nothing else.
Used only to compare the spec wording with the code model cppStoi. -/
def isValidIntegerString (s : String) : Bool :=
  match s.data with
  | [] => false
  | c :: r =>
    if c.toNat = 45 || c.toNat = 43 then
      !r.isEmpty && r.all isDigit
    else
      (c :: r).all isDigit

/-- Exit-code structure of main (gst-soup-server-example.cpp lines
430-515).  In order: gst_init; the argc < 5 usage check (line 436);
soup_server_new failure (line 446); g_main_loop_new failure (line 458);
std::stoi on the port argument with the catch block (lines 476-484);
then the try block: the http_stream_pipeline constructor (line 491) whose
exception is caught at line 507 after which control falls through to
return 0 at line 514; soup_server_listen_all failure (line 496) which
returns -1; otherwise the main loop runs and main returns 0. -/
def mainExit (argc : Nat) (serverOk mainloopOk : Bool) (portArg : String)
    (pipelineOk listenOk : Bool) : Int :=
  if argc < 5 then -1
  else if !serverOk then -1
  else if !mainloopOk then -1
  else
    match cppStoi portArg with
    | none => -1
    | some _ =>
      if !pipelineOk then 0
      else if !listenOk then -1
      else 0

/- ===================== http_stream_pipeline ===================== -/

/-- Pipeline states used by the program: the constructor ends in READY
(line 136), play(true) requests PLAYING and play(false) requests READY
(line 155), the destructor goes to NULL (line 148). -/
inductive PState
  | null
  | ready
  | playing
deriving DecidableEq

/-- Externally visible actions of the pipeline operations, in the order
the code performs them. -/
inductive Action
  | regInsert (k v : Nat)
  | sinkAdd (k : Nat)
  | playCall (p : Bool)
  | closeConn (k v : Nat)
  | regErase (k : Nat)
  | postStop
deriving DecidableEq

/-- State of an http_stream_pipeline object: the m_clients map (GSocket
keys to GIOStream values, rendered as Nat), the set of sockets currently
attached to the multisocketsink, the pipeline state, and the number of
StopPipeline messages pending on the bus. -/
structure Model where
  clients : List (Nat × Nat)
  sink : List Nat
  pstate : PState
  bus : Nat
deriving DecidableEq

/-- State right after the constructor: no clients, empty sink, READY. -/
def initModel : Model := ⟨[], [], PState.ready, 0⟩

/-- Lookup in the m_clients map (std::map::find). -/
def mapFind (k : Nat) : List (Nat × Nat) → Option Nat
  | [] => none
  | (k2, v) :: r => if k = k2 then some v else mapFind k r

/-- Insertion via std::map::operator[] followed by assignment: if the key
is present its mapped value is replaced, otherwise a new entry is
created. -/
def mapInsert (k v : Nat) : List (Nat × Nat) → List (Nat × Nat)
  | [] => [(k, v)]
  | (k2, v2) :: r => if k = k2 then (k, v) :: r else (k2, v2) :: mapInsert k v r

/-- Removal via std::map::erase of the entry with the given key. -/
def mapErase (k : Nat) : List (Nat × Nat) → List (Nat × Nat)
  | [] => []
  | (k2, v2) :: r => if k = k2 then r else (k2, v2) :: mapErase k r

/-- Keys of the m_clients map. -/
def keysOf (m : List (Nat × Nat)) : List Nat := m.map Prod.fst

/-- The multisocketsink add signal: the socket joins the set of
distribution targets. -/
def sinkInsert (k : Nat) (s : List Nat) : List Nat :=
  if k ∈ s then s else s ++ [k]

/-- The multisocketsink removing a socket. -/
def sinkErase (k : Nat) (s : List Nat) : List Nat := s.erase k

/-- add_client (lines 164-181): under the client mutex, store the stream
under the socket key (operator[], overwriting any previous mapping), emit
the add signal on the multisocketsink, and if the map now has exactly one
entry call play(true), which requests PLAYING. -/
def addClient (st : Model) (k v : Nat) : Model × List Action :=
  let clients2 := mapInsert k v st.clients
  let sink2 := sinkInsert k st.sink
  if clients2.length = 1 then
    (⟨clients2, sink2, PState.playing, st.bus⟩,
     [Action.regInsert k v, Action.sinkAdd k, Action.playCall true])
  else
    (⟨clients2, sink2, st.pstate, st.bus⟩,
     [Action.regInsert k v, Action.sinkAdd k])

/-- on_client_socket_removed (lines 185-221): invoked after the
multisocketsink dropped the socket.  Under the client mutex: if the
socket is not in the map, ignore; otherwise close its GIOStream, erase
the entry, and if the map became empty post a StopPipeline element
message on the bus (no direct play call from this thread). -/
def removeClient (st : Model) (k : Nat) : Model × List Action :=
  let sink2 := sinkErase k st.sink
  match mapFind k st.clients with
  | none => (⟨st.clients, sink2, st.pstate, st.bus⟩, [])
  | some v =>
    let clients2 := mapErase k st.clients
    if clients2 = [] then
      (⟨clients2, sink2, st.pstate, st.bus + 1⟩,
       [Action.closeConn k v, Action.regErase k, Action.postStop])
    else
      (⟨clients2, sink2, st.pstate, st.bus⟩,
       [Action.closeConn k v, Action.regErase k])

/-- bus_watch handling of the StopPipeline element message (lines
260-265): when such a message is pending, consume it and call
play(false), which requests READY. -/
def processStop (st : Model) : Model × List Action :=
  if st.bus = 0 then (st, [])
  else (⟨st.clients, st.sink, PState.ready, st.bus - 1⟩, [Action.playCall false])

/-- The multisocketsink clear signal removes every socket in turn, each
removal invoking on_client_socket_removed. -/
def clearList (st : Model) : List Nat → Model × List Action
  | [] => (st, [])
  | k :: r =>
    let p1 := removeClient st k
    let p2 := clearList p1.1 r
    (p2.1, p1.2 ++ p2.2)

/-- g_signal_emit_by_name(m_multisocketsink, "clear") over the current
sink contents. -/
def clearAll (st : Model) : Model × List Action := clearList st st.sink

/-- bus_watch handling of GST_MESSAGE_EOS (lines 267-283): play(false)
first, then clear the multisocketsink, disconnecting every client. -/
def eosHandler (st : Model) : Model × List Action :=
  let st2 : Model := ⟨st.clients, st.sink, PState.ready, st.bus⟩
  let p := clearAll st2
  (p.1, Action.playCall false :: p.2)

/-- bus_watch handling of GST_MESSAGE_ERROR (lines 321-331): after
logging and the dot dump, play(false) and clear, just like EOS. -/
def errHandler (st : Model) : Model × List Action :=
  let st2 : Model := ⟨st.clients, st.sink, PState.ready, st.bus⟩
  let p := clearAll st2
  (p.1, Action.playCall false :: p.2)

/-- Events that drive the model: a client registration (wrote-headers
callback reaching add_client), a client removal, the bus watch consuming
a pending StopPipeline message, EOS, and a pipeline error. -/
inductive Ev
  | add (k v : Nat)
  | rem (k : Nat)
  | stop
  | eos
  | err
deriving DecidableEq

/-- One step of the system. -/
def step (st : Model) (e : Ev) : Model × List Action :=
  match e with
  | Ev.add k v => addClient st k v
  | Ev.rem k => removeClient st k
  | Ev.stop => processStop st
  | Ev.eos => eosHandler st
  | Ev.err => errHandler st

/-- Run a trace of events from a state. -/
def run (st : Model) : List Ev → Model
  | [] => st
  | e :: r => run (step st e).1 r

/-- Reachable states: produced by some trace from the initial state. -/
def Reachable (st : Model) : Prop := ∃ tr : List Ev, run initModel tr = st

/-- The registry and the fan-out sink are paired one to one: the sink
holds no duplicates and its sockets are exactly the registry keys. -/
def paired (st : Model) : Prop :=
  st.sink.Nodup ∧ List.Perm (keysOf st.clients) st.sink

instance decListPermNat (l1 l2 : List Nat) : Decidable (List.Perm l1 l2) :=
  decidable_of_iff (l1.isPerm l2 = true) List.isPerm_iff

instance decPaired (st : Model) : Decidable (paired st) := by
  unfold paired
  infer_instance

/-- Connections closed by a list of actions, in order. -/
def closedOf : List Action → List (Nat × Nat)
  | [] => []
  | Action.closeConn k v :: r => (k, v) :: closedOf r
  | Action.regInsert _ _ :: r => closedOf r
  | Action.sinkAdd _ :: r => closedOf r
  | Action.playCall _ :: r => closedOf r
  | Action.regErase _ :: r => closedOf r
  | Action.postStop :: r => closedOf r

/- ===================== helper lemmas: the client map ===================== -/

theorem mapFind_insert_self (k v : Nat) (m : List (Nat × Nat)) :
    mapFind k (mapInsert k v m) = some v := by
  induction m with
  | nil => simp [mapInsert, mapFind]
  | cons p r ih =>
    by_cases h : k = p.1
    · simp [mapInsert, mapFind, h]
    · simp [mapInsert, mapFind, h, ih]

theorem length_insert_absent (k v : Nat) (m : List (Nat × Nat))
    (h : mapFind k m = none) : (mapInsert k v m).length = m.length + 1 := by
  induction m with
  | nil => simp [mapInsert]
  | cons p r ih =>
    by_cases hk : k = p.1
    · simp [mapFind, hk] at h
    · simp [mapFind, hk] at h
      simp [mapInsert, hk, ih h]

theorem length_insert_present (k v : Nat) (m : List (Nat × Nat))
    (h : mapFind k m ≠ none) : (mapInsert k v m).length = m.length := by
  induction m with
  | nil => simp [mapFind] at h
  | cons p r ih =>
    by_cases hk : k = p.1
    · simp [mapInsert, hk]
    · simp [mapFind, hk] at h
      simp [mapInsert, hk, ih h]

theorem keysOf_insert_present (k v : Nat) (m : List (Nat × Nat))
    (h : mapFind k m ≠ none) : keysOf (mapInsert k v m) = keysOf m := by
  induction m with
  | nil => simp [mapFind] at h
  | cons p r ih =>
    by_cases hk : k = p.1
    · simp [mapInsert, keysOf, hk]
    · simp [mapFind, hk] at h
      simp [mapInsert, keysOf, hk] at ih ⊢
      exact ih h

theorem keysOf_insert_absent (k v : Nat) (m : List (Nat × Nat))
    (h : mapFind k m = none) : keysOf (mapInsert k v m) = keysOf m ++ [k] := by
  induction m with
  | nil => simp [mapInsert, keysOf]
  | cons p r ih =>
    by_cases hk : k = p.1
    · simp [mapFind, hk] at h
    · simp [mapFind, hk] at h
      simp [mapInsert, keysOf, hk] at ih ⊢
      exact ih h

theorem mapFind_none_iff (k : Nat) (m : List (Nat × Nat)) :
    mapFind k m = none ↔ k ∉ keysOf m := by
  induction m with
  | nil => simp [mapFind, keysOf]
  | cons p r ih =>
    by_cases hk : k = p.1
    · simp [mapFind, keysOf, hk]
    · simp [mapFind, keysOf, hk, ih]

theorem keysOf_erase (k : Nat) (m : List (Nat × Nat)) :
    keysOf (mapErase k m) = (keysOf m).erase k := by
  induction m with
  | nil => simp [mapErase, keysOf]
  | cons p r ih =>
    by_cases hk : k = p.1
    · simp [mapErase, keysOf, hk, List.erase_cons_head]
    · have hbeq : (p.1 == k) = false := by simp [Ne.symm hk]
      simp only [keysOf] at ih
      simp [mapErase, keysOf, hk, List.erase_cons, hbeq, ih]

theorem perm_cons_erase (k v : Nat) (m : List (Nat × Nat))
    (h : mapFind k m = some v) : List.Perm m ((k, v) :: mapErase k m) := by
  induction m with
  | nil => simp [mapFind] at h
  | cons p r ih =>
    obtain ⟨k2, v2⟩ := p
    by_cases hk : k = k2
    · subst hk
      simp [mapFind] at h
      subst h
      simp [mapErase]
    · simp [mapFind, hk] at h
      have hperm := (ih h).cons (k2, v2)
      have hswap : List.Perm ((k2, v2) :: (k, v) :: mapErase k r)
          ((k, v) :: (k2, v2) :: mapErase k r) :=
        List.Perm.swap (k, v) (k2, v2) (mapErase k r)
      simp only [mapErase, if_neg hk]
      exact hperm.trans hswap

/- ===================== helper lemmas: actions and clearing ===================== -/

theorem closedOf_append (a b : List Action) :
    closedOf (a ++ b) = closedOf a ++ closedOf b := by
  induction a with
  | nil => simp [closedOf]
  | cons x r ih => cases x <;> simp [closedOf, ih]

theorem playCall_not_mem_remove (st : Model) (k : Nat) (b : Bool) :
    Action.playCall b ∉ (removeClient st k).2 := by
  unfold removeClient
  cases h : mapFind k st.clients with
  | none => simp
  | some v =>
    by_cases he : mapErase k st.clients = []
    · simp [he]
    · simp [he]

theorem postStop_mem_remove_iff (st : Model) (k : Nat) :
    Action.postStop ∈ (removeClient st k).2 ↔
      (mapFind k st.clients ≠ none ∧ (removeClient st k).1.clients = []) := by
  unfold removeClient
  cases h : mapFind k st.clients with
  | none => simp
  | some v =>
    by_cases he : mapErase k st.clients = []
    · simp [he]
    · simp [he]

theorem closedOf_remove (st : Model) (k v : Nat)
    (h : mapFind k st.clients = some v) :
    closedOf (removeClient st k).2 = [(k, v)] := by
  unfold removeClient
  rw [h]
  by_cases he : mapErase k st.clients = []
  · simp [he, closedOf]
  · simp [he, closedOf]

theorem remove_clients_of_found (st : Model) (k v : Nat)
    (h : mapFind k st.clients = some v) :
    (removeClient st k).1.clients = mapErase k st.clients := by
  unfold removeClient
  rw [h]
  by_cases he : mapErase k st.clients = []
  · simp [he]
  · simp [he]

theorem remove_sink (st : Model) (k : Nat) :
    (removeClient st k).1.sink = st.sink.erase k := by
  unfold removeClient
  cases h : mapFind k st.clients with
  | none => simp [sinkErase]
  | some v =>
    by_cases he : mapErase k st.clients = []
    · simp [he, sinkErase]
    · simp [he, sinkErase]

theorem playCall_not_mem_clearList (l : List Nat) :
    ∀ (st : Model) (b : Bool), Action.playCall b ∉ (clearList st l).2 := by
  induction l with
  | nil =>
    intro st b
    simp [clearList]
  | cons k r ih =>
    intro st b
    simp only [clearList, List.mem_append]
    push_neg
    exact ⟨playCall_not_mem_remove st k b, ih _ b⟩

theorem clearList_spec (l : List Nat) :
    ∀ st : Model, List.Perm (keysOf st.clients) l → l.Nodup → st.sink = l →
      (clearList st l).1.clients = [] ∧ (clearList st l).1.sink = [] ∧
      List.Perm (closedOf (clearList st l).2) st.clients := by
  induction l with
  | nil =>
    intro st hperm _ hsink
    have hkeys : keysOf st.clients = [] := List.Perm.eq_nil hperm
    have hcl : st.clients = [] := by
      cases hc : st.clients with
      | nil => rfl
      | cons p r => simp [keysOf, hc] at hkeys
    simp [clearList, hcl, hsink, closedOf]
  | cons k r ih =>
    intro st hperm hnd hsink
    have hmem : k ∈ keysOf st.clients := hperm.mem_iff.mpr (by simp)
    have hfind : mapFind k st.clients ≠ none := by
      rw [Ne, mapFind_none_iff]
      simpa using hmem
    cases hf : mapFind k st.clients with
    | none => exact absurd hf hfind
    | some v =>
      have hcl2 : (removeClient st k).1.clients = mapErase k st.clients :=
        remove_clients_of_found st k v hf
      have hsink2 : (removeClient st k).1.sink = r := by
        rw [remove_sink, hsink, List.erase_cons_head]
      have hperm2 : List.Perm (keysOf (removeClient st k).1.clients) r := by
        rw [hcl2, keysOf_erase]
        have := hperm.erase k
        rwa [List.erase_cons_head] at this
      have hnd2 : r.Nodup := (List.nodup_cons.mp hnd).2
      have hrec := ih (removeClient st k).1 hperm2 hnd2 hsink2
      refine ⟨?_, ?_, ?_⟩
      · simp only [clearList]
        exact hrec.1
      · simp only [clearList]
        exact hrec.2.1
      · simp only [clearList, closedOf_append, closedOf_remove st k v hf]
        have hpermrec := hrec.2.2
        rw [hcl2] at hpermrec
        have hcons : List.Perm ((k, v) :: closedOf (clearList (removeClient st k).1 r).2)
            ((k, v) :: mapErase k st.clients) := hpermrec.cons (k, v)
        have hback := (perm_cons_erase k v st.clients hf).symm
        simpa [closedOf] using hcons.trans hback

/- ===================== helper lemmas: the pairing invariant ===================== -/

theorem add_clients_eq (st : Model) (k v : Nat) :
    (addClient st k v).1.clients = mapInsert k v st.clients := by
  by_cases h : (mapInsert k v st.clients).length = 1 <;> simp [addClient, h]

theorem add_sink_eq (st : Model) (k v : Nat) :
    (addClient st k v).1.sink = sinkInsert k st.sink := by
  by_cases h : (mapInsert k v st.clients).length = 1 <;> simp [addClient, h]

theorem remove_clients_of_none (st : Model) (k : Nat)
    (h : mapFind k st.clients = none) :
    (removeClient st k).1.clients = st.clients := by
  unfold removeClient
  rw [h]

theorem processStop_clients_sink (st : Model) :
    (processStop st).1.clients = st.clients ∧ (processStop st).1.sink = st.sink := by
  unfold processStop
  split <;> exact ⟨rfl, rfl⟩

theorem processStop_acts (st : Model) :
    (processStop st).2 = if st.bus = 0 then [] else [Action.playCall false] := by
  unfold processStop
  split <;> simp_all

theorem paired_add (st : Model) (k v : Nat) (h : paired st) :
    paired (addClient st k v).1 := by
  obtain ⟨hnd, hperm⟩ := h
  rw [paired, add_clients_eq, add_sink_eq]
  cases hf : mapFind k st.clients with
  | some w =>
    have hkmem : k ∈ keysOf st.clients := by
      by_contra hn
      rw [← mapFind_none_iff] at hn
      rw [hf] at hn
      exact Option.noConfusion hn
    have hsmem : k ∈ st.sink := hperm.mem_iff.mp hkmem
    rw [keysOf_insert_present k v _ (by simp [hf]), sinkInsert, if_pos hsmem]
    exact ⟨hnd, hperm⟩
  | none =>
    have hkmem : k ∉ keysOf st.clients := (mapFind_none_iff k _).mp hf
    have hsmem : k ∉ st.sink := fun hc => hkmem (hperm.mem_iff.mpr hc)
    rw [keysOf_insert_absent k v _ hf, sinkInsert, if_neg hsmem]
    constructor
    · rw [List.nodup_append]
      exact ⟨hnd, List.nodup_singleton k, by simpa using hsmem⟩
    · exact hperm.append (List.Perm.refl [k])

theorem paired_remove (st : Model) (k : Nat) (h : paired st) :
    paired (removeClient st k).1 := by
  obtain ⟨hnd, hperm⟩ := h
  cases hf : mapFind k st.clients with
  | none =>
    have hkmem : k ∉ keysOf st.clients := (mapFind_none_iff k _).mp hf
    have hsmem : k ∉ st.sink := fun hc => hkmem (hperm.mem_iff.mpr hc)
    rw [paired, remove_clients_of_none st k hf, remove_sink,
      List.erase_of_not_mem hsmem]
    exact ⟨hnd, hperm⟩
  | some v =>
    rw [paired, remove_clients_of_found st k v hf, remove_sink, keysOf_erase]
    exact ⟨hnd.erase k, hperm.erase k⟩

theorem paired_eos (st : Model) (h : paired st) : paired (eosHandler st).1 := by
  obtain ⟨hnd, hperm⟩ := h
  have hspec := clearList_spec st.sink ⟨st.clients, st.sink, PState.ready, st.bus⟩
    hperm hnd rfl
  unfold eosHandler clearAll
  exact ⟨by rw [hspec.2.1]; exact List.nodup_nil,
    by rw [hspec.1, hspec.2.1]; simp [keysOf]⟩

theorem paired_err (st : Model) (h : paired st) : paired (errHandler st).1 := by
  obtain ⟨hnd, hperm⟩ := h
  have hspec := clearList_spec st.sink ⟨st.clients, st.sink, PState.ready, st.bus⟩
    hperm hnd rfl
  unfold errHandler clearAll
  exact ⟨by rw [hspec.2.1]; exact List.nodup_nil,
    by rw [hspec.1, hspec.2.1]; simp [keysOf]⟩

theorem paired_step (st : Model) (e : Ev) (h : paired st) : paired (step st e).1 := by
  cases e with
  | add k v => exact paired_add st k v h
  | rem k => exact paired_remove st k h
  | stop =>
    obtain ⟨hc, hs⟩ := processStop_clients_sink st
    exact ⟨by rw [step, hs]; exact h.1, by rw [step, hc, hs]; exact h.2⟩
  | eos => exact paired_eos st h
  | err => exact paired_err st h

theorem paired_run (tr : List Ev) :
    ∀ st : Model, paired st → paired (run st tr) := by
  induction tr with
  | nil =>
    intro st h
    exact h
  | cons e r ih =>
    intro st h
    exact ih _ (paired_step st e h)

theorem paired_reachable (st : Model) (h : Reachable st) : paired st := by
  obtain ⟨tr, htr⟩ := h
  rw [← htr]
  exact paired_run tr initModel ⟨List.nodup_nil, List.Perm.refl []⟩

/- ===================== helper lemmas: the stoi model ===================== -/

theorem digit_not_space (c : Char) (h : isDigit c = true) : isSpace c = false := by
  simp [isDigit] at h
  simp [isSpace]
  omega

theorem digit_val_le (c : Char) (h : isDigit c = true) : digitVal c ≤ 9 := by
  simp [isDigit] at h
  simp [digitVal]
  omega

theorem digit_not_minus (c : Char) (h : isDigit c = true) : c.toNat ≠ 45 := by
  simp [isDigit] at h
  omega

theorem digit_not_plus (c : Char) (h : isDigit c = true) : c.toNat ≠ 43 := by
  simp [isDigit] at h
  omega

theorem takeWhile_of_all (p : Char → Bool) (l : List Char) (h : l.all p = true) :
    l.takeWhile p = l := by
  induction l with
  | nil => rfl
  | cons c r ih =>
    simp only [List.all_cons, Bool.and_eq_true] at h
    simp [List.takeWhile_cons, h.1, ih h.2]

theorem natOfDigits_lt (ds : List Char) :
    ∀ acc : Nat, ds.all isDigit = true →
      natOfDigits ds acc < (acc + 1) * 10 ^ ds.length := by
  induction ds with
  | nil =>
    intro acc _
    simp [natOfDigits]
  | cons c r ih =>
    intro acc h
    simp only [List.all_cons, Bool.and_eq_true] at h
    have hd : digitVal c ≤ 9 := digit_val_le c h.1
    have hrec := ih (acc * 10 + digitVal c) h.2
    have hstep : (acc * 10 + digitVal c + 1) * 10 ^ r.length ≤
        ((acc + 1) * 10) * 10 ^ r.length := by
      apply Nat.mul_le_mul_right
      omega
    have hlen : (10 : Nat) ^ (c :: r).length = 10 ^ r.length * 10 := by
      simp [List.length_cons, Nat.pow_succ]
    calc natOfDigits (c :: r) acc = natOfDigits r (acc * 10 + digitVal c) := rfl
      _ < (acc * 10 + digitVal c + 1) * 10 ^ r.length := hrec
      _ ≤ ((acc + 1) * 10) * 10 ^ r.length := hstep
      _ = (acc + 1) * 10 ^ (c :: r).length := by rw [hlen]; ring

theorem stoiDigits_all_digits (cs : List Char) (h : cs.all isDigit = true)
    (hne : cs ≠ []) (hb : natOfDigits cs 0 ≤ 2147483647) :
    stoiDigits cs false = some ((natOfDigits cs 0 : Nat) : Int) := by
  unfold stoiDigits
  rw [takeWhile_of_all _ _ h]
  simp [hne, hb]

/- ===================== claim theorems ===================== -/

/-- C1, counterexample: at an input where the pipeline (graph)
construction fails and every other startup step succeeds, main returns
0, not a non-zero status, because the exception thrown by the
http_stream_pipeline constructor is caught at line 507 and control falls
through to the return 0 at line 514.  This refutes the claim that
graph-construction failure yields a non-zero exit status. -/
theorem main_zero_on_pipeline_failure :
    mainExit 5 true true "8080" false true = 0 := by decide

/-- C1, amended claim: main exits with status 0 on normal shutdown and
also on graph-construction failure (the constructor exception is caught
and logged, after which main returns 0); it exits non-zero (-1) on
argument errors, on server or mainloop creation failure, on an invalid
port argument, and on listener-startup failure. -/
theorem main_exit_code_spec (argc : Nat) (sOk mOk pOk lOk : Bool)
    (port : String) :
    mainExit argc sOk mOk port pOk lOk = 0 ↔
      (5 ≤ argc ∧ sOk = true ∧ mOk = true ∧ cppStoi port ≠ none ∧
        (pOk = false ∨ lOk = true)) := by
  by_cases ha : argc < 5 <;>
    cases sOk <;> cases mOk <;> cases pOk <;> cases lOk <;>
    cases h : cppStoi port <;>
    simp [mainExit, ha, h] <;> omega

/-- C8, counterexample: the string 12x is not a valid integer, yet the
std::stoi validation accepts it (parsing the value 12), so startup does
not fail on it.  This refutes the claim that every port argument that is
not a valid integer makes startup fail. -/
theorem trailing_junk_passes_validation :
    isValidIntegerString "12x" = false ∧ cppStoi "12x" = some 12 := by
  exact ⟨by decide, by decide⟩

/-- C8, amended claim: the validation fails (and main exits non-zero)
exactly when the argument has no leading decimal integer after optional
whitespace and sign, or its value leaves the int range; every argument
that is a plain decimal numeral of at most nine digits (hence every
valid port number) passes validation and parses to its numeric value,
but a valid leading integer followed by trailing junk passes as well. -/
theorem digit_string_passes_validation (s : String) (h1 : s.data ≠ [])
    (h2 : s.data.all isDigit = true) (h3 : s.data.length ≤ 9) :
    cppStoi s = some ((natOfDigits s.data 0 : Nat) : Int) := by
  cases hd : s.data with
  | nil => exact absurd hd h1
  | cons c r =>
    rw [hd] at h2 h3
    have hcd : isDigit c = true := by
      simp only [List.all_cons, Bool.and_eq_true] at h2
      exact h2.1
    have hsp : isSpace c = false := digit_not_space c hcd
    have hdrop : (c :: r).dropWhile isSpace = c :: r := by
      simp [List.dropWhile_cons, hsp]
    have h45 : ¬(c.toNat = 45) := digit_not_minus c hcd
    have h43 : ¬(c.toNat = 43) := digit_not_plus c hcd
    have hbound : natOfDigits (c :: r) 0 ≤ 2147483647 := by
      have hlt := natOfDigits_lt (c :: r) 0 h2
      have hpow : (10 : Nat) ^ (c :: r).length ≤ 10 ^ 9 :=
        Nat.pow_le_pow_right (by omega) h3
      have h9 : (10 : Nat) ^ 9 = 1000000000 := by norm_num
      omega
    unfold cppStoi
    rw [hd, hdrop]
    simp only [h45, h43, if_false]
    exact stoiDigits_all_digits (c :: r) h2 (by simp) hbound

/-- C8, witness for the amended claim at the concrete argument 8080. -/
theorem digit_string_passes_validation_witness :
    cppStoi "8080" = some 8080 :=
  (digit_string_passes_validation "8080" (by decide) (by decide)
    (by decide)).trans (by decide)

theorem applyOps_true (ops : List GOp) :
    applyOps ⟨true⟩ ops = (⟨true⟩ : ScopeGuard) := by
  induction ops with
  | nil => rfl
  | cons op r ih =>
    cases op <;>
      simpa [applyOps, ScopeGuard.dismiss, ScopeGuard.moveFrom] using ih

/-- C10: the cleanup function of a scope guard runs at destruction if and
only if dismiss was never called on it and it was never moved from;
dismiss is idempotent; a moved-from guard never runs its function; and an
exception thrown by the cleanup function never propagates out of the
destructor. -/
theorem scope_guard_spec (E : Type) (f : Except E Unit) (ops : List GOp)
    (g : ScopeGuard) :
    (((applyOps mkGuard ops).destruct f).1 = true ↔
      (GOp.dis ∉ ops ∧ GOp.movedFrom ∉ ops)) ∧
    g.dismiss.dismiss = g.dismiss ∧
    ((g.moveFrom.2.destruct f).1 = false) ∧
    ((g.destruct f).2 = false) := by
  refine ⟨?_, rfl, ?_, ?_⟩
  · cases ops with
    | nil =>
      simp only [applyOps]
      constructor
      · intro _
        exact ⟨List.not_mem_nil _, List.not_mem_nil _⟩
      · intro _
        cases f <;> rfl
    | cons op r =>
      have hval : applyOps mkGuard (op :: r) = (⟨true⟩ : ScopeGuard) := by
        cases op <;>
          simp [applyOps, mkGuard, ScopeGuard.dismiss, ScopeGuard.moveFrom,
            applyOps_true]
      rw [hval]
      simp only [ScopeGuard.destruct]
      constructor
      · intro hfalse
        simp at hfalse
      · intro hmem
        cases op with
        | dis => exact absurd (List.mem_cons_self _ _) hmem.1
        | movedFrom => exact absurd (List.mem_cons_self _ _) hmem.2
  · simp [ScopeGuard.moveFrom, ScopeGuard.destruct]
  · unfold ScopeGuard.destruct
    by_cases hd : g.dismissed
    · simp [hd]
    · cases f <;> simp [hd]

/-- C2, code-bug trace: register client 1 (pipeline goes to PLAYING),
remove client 1 (a StopPipeline message is posted), register client 2
(registry becomes non-empty again, pipeline already PLAYING so no play
call), then the bus watch processes the stale StopPipeline message and
calls play(false).  The resulting state is settled (no pending message),
has a non-empty registry, and yet the pipeline is not PLAYING —
contradicting the claimed settled-state correspondence. -/
theorem stale_stop_breaks_play_state :
    (run initModel [Ev.add 1 10, Ev.rem 1, Ev.add 2 20, Ev.stop]).clients ≠ [] ∧
    (run initModel [Ev.add 1 10, Ev.rem 1, Ev.add 2 20, Ev.stop]).bus = 0 ∧
    (run initModel [Ev.add 1 10, Ev.rem 1, Ev.add 2 20, Ev.stop]).pstate ≠
      PState.playing := by
  decide

/-- C3, counterexample: registering key 1 while key 1 is already mapped
to stream 10 is not a no-op: the mapping is overwritten with the new
stream 20. -/
theorem add_existing_key_overwrites :
    mapFind 1 (run initModel [Ev.add 1 10]).clients = some 10 ∧
    mapFind 1 ((addClient (run initModel [Ev.add 1 10]) 1 20).1).clients =
      some 20 := by
  exact ⟨by decide, by decide⟩

/-- C3, amended claim: a registration whose key is already present is not
rejected and is not a no-op: it overwrites the existing entry with the
new stream and emits the multisocketsink add signal again; only the
registry size is unchanged. -/
theorem add_existing_key_spec (st : Model) (k v : Nat)
    (h : mapFind k st.clients ≠ none) :
    mapFind k (addClient st k v).1.clients = some v ∧
    (addClient st k v).1.clients.length = st.clients.length ∧
    Action.sinkAdd k ∈ (addClient st k v).2 := by
  refine ⟨?_, ?_, ?_⟩
  · rw [add_clients_eq]
    exact mapFind_insert_self k v st.clients
  · rw [add_clients_eq]
    exact length_insert_present k v st.clients h
  · unfold addClient
    by_cases hc : (mapInsert k v st.clients).length = 1 <;> simp [hc]

/-- C3, witness for the amended claim at a concrete duplicate add. -/
theorem add_existing_key_spec_witness :
    mapFind 1 ((addClient ⟨[(1, 10)], [1], PState.playing, 0⟩ 1 20).1).clients =
      some 20 :=
  (add_existing_key_spec ⟨[(1, 10)], [1], PState.playing, 0⟩ 1 20 (by decide)).1

/-- C4: a removal posts a StopPipeline message exactly when the key was
present and the registry became empty; a removal never invokes a play
call itself; and the play(false) call happens exactly when the bus watch
processes a pending StopPipeline message, which also sets the pipeline
state to READY. -/
theorem remove_last_posts_stop_only (st : Model) (k : Nat) :
    (Action.postStop ∈ (removeClient st k).2 ↔
      (mapFind k st.clients ≠ none ∧ (removeClient st k).1.clients = [])) ∧
    (∀ b : Bool, Action.playCall b ∉ (removeClient st k).2) ∧
    (processStop st).2 = (if st.bus = 0 then [] else [Action.playCall false]) ∧
    (processStop st).1.pstate =
      (if st.bus = 0 then st.pstate else PState.ready) := by
  refine ⟨postStop_mem_remove_iff st k, playCall_not_mem_remove st k, ?_, ?_⟩
  · exact processStop_acts st
  · unfold processStop
    by_cases hb : st.bus = 0 <;> simp [hb]

/-- C5, counterexample: with exactly one client registered under key 1,
re-registering key 1 leaves the size at one yet invokes play(true) again,
so play(true) is not invoked only on 0→1 transitions. -/
theorem duplicate_add_extra_play :
    (run initModel [Ev.add 1 10]).clients.length = 1 ∧
    Action.playCall true ∈ (addClient (run initModel [Ev.add 1 10]) 1 20).2 := by
  exact ⟨by decide, by decide⟩

/-- C5, amended claim: play(true) is invoked by a registration exactly
when the registry holds exactly one entry right after the insertion; for
a key not already present this coincides with the 0→1 transition; and no
removal, stop processing, EOS handling, or error handling ever invokes
play(true). -/
theorem play_true_iff_singleton (st : Model) (k v : Nat) :
    (Action.playCall true ∈ (addClient st k v).2 ↔
      (mapInsert k v st.clients).length = 1) ∧
    (mapFind k st.clients = none →
      (Action.playCall true ∈ (addClient st k v).2 ↔ st.clients = [])) ∧
    Action.playCall true ∉ (removeClient st k).2 ∧
    Action.playCall true ∉ (processStop st).2 ∧
    Action.playCall true ∉ (eosHandler st).2 ∧
    Action.playCall true ∉ (errHandler st).2 := by
  have hmem : Action.playCall true ∈ (addClient st k v).2 ↔
      (mapInsert k v st.clients).length = 1 := by
    unfold addClient
    by_cases hc : (mapInsert k v st.clients).length = 1 <;> simp [hc]
  refine ⟨hmem, ?_, playCall_not_mem_remove st k true, ?_, ?_, ?_⟩
  · intro hf
    rw [hmem, length_insert_absent k v st.clients hf]
    constructor
    · intro hone
      have : st.clients.length = 0 := by omega
      exact List.length_eq_zero.mp this
    · intro hnil
      rw [hnil]
      rfl
  · rw [processStop_acts]
    by_cases hb : st.bus = 0 <;> simp [hb]
  · unfold eosHandler clearAll
    simp only [List.mem_cons]
    push_neg
    exact ⟨by simp, playCall_not_mem_clearList _ _ true⟩
  · unfold errHandler clearAll
    simp only [List.mem_cons]
    push_neg
    exact ⟨by simp, playCall_not_mem_clearList _ _ true⟩

/-- C5, witness for the amended claim: a first registration into the
empty registry does invoke play(true). -/
theorem play_true_iff_singleton_witness :
    Action.playCall true ∈ (addClient initModel 1 10).2 :=
  ((play_true_iff_singleton initModel 1 10).2.1 (by decide)).mpr (by decide)

/-- C6: in every reachable state, after the EOS handler or the error
handler runs, the registry is empty and the connections closed during the
handling are exactly the previously registered ones, each closed exactly
once (the closed list is a permutation of the previous registry
contents). -/
theorem fatal_event_atomicity (st : Model) (h : Reachable st) :
    (eosHandler st).1.clients = [] ∧
    List.Perm (closedOf (eosHandler st).2) st.clients ∧
    (errHandler st).1.clients = [] ∧
    List.Perm (closedOf (errHandler st).2) st.clients := by
  obtain ⟨hnd, hperm⟩ := paired_reachable st h
  have hspec := clearList_spec st.sink
    ⟨st.clients, st.sink, PState.ready, st.bus⟩ hperm hnd rfl
  refine ⟨?_, ?_, ?_, ?_⟩
  · unfold eosHandler clearAll
    exact hspec.1
  · unfold eosHandler clearAll
    simpa [closedOf] using hspec.2.2
  · unfold errHandler clearAll
    exact hspec.1
  · unfold errHandler clearAll
    simpa [closedOf] using hspec.2.2

/-- C6, witness at a reachable state with two registered clients. -/
theorem fatal_event_atomicity_witness :
    (eosHandler (run initModel [Ev.add 1 10, Ev.add 2 20])).1.clients = [] :=
  (fatal_event_atomicity (run initModel [Ev.add 1 10, Ev.add 2 20])
    ⟨[Ev.add 1 10, Ev.add 2 20], rfl⟩).1

/-- C7: the EOS handler first performs play(false) and only then the
clear of the fan-out sink: its action list starts with the play(false)
call, the remainder closes exactly the previously registered connections,
and contains no further play call — completion is signalled to clients
solely by closing their connections. -/
theorem eos_pause_before_clear (st : Model) (h : Reachable st) :
    ∃ rest : List Action,
      (eosHandler st).2 = Action.playCall false :: rest ∧
      List.Perm (closedOf rest) st.clients ∧
      (∀ b : Bool, Action.playCall b ∉ rest) := by
  obtain ⟨hnd, hperm⟩ := paired_reachable st h
  have hspec := clearList_spec st.sink
    ⟨st.clients, st.sink, PState.ready, st.bus⟩ hperm hnd rfl
  refine ⟨(clearAll ⟨st.clients, st.sink, PState.ready, st.bus⟩).2, rfl,
    hspec.2.2, ?_⟩
  intro b
  exact playCall_not_mem_clearList _ _ b

/-- C7, witness at a reachable state with one registered client. -/
theorem eos_pause_before_clear_witness :
    ∃ rest : List Action,
      (eosHandler (run initModel [Ev.add 3 30])).2 =
        Action.playCall false :: rest ∧
      List.Perm (closedOf rest) (run initModel [Ev.add 3 30]).clients ∧
      (∀ b : Bool, Action.playCall b ∉ rest) :=
  eos_pause_before_clear (run initModel [Ev.add 3 30]) ⟨[Ev.add 3 30], rfl⟩

/-- C9: in add_client the registry insertion and the sink add are
performed before any play(true) call (whenever play(true) is emitted the
action list is exactly insert, sink add, play), the new client is mapped
in the registry and present in the sink afterwards, and the registry and
fan-out sink remain paired one to one. -/
theorem add_client_pairing_at_play (st : Model) (k v : Nat)
    (h : Reachable st) :
    (Action.playCall true ∈ (addClient st k v).2 →
      (addClient st k v).2 =
        [Action.regInsert k v, Action.sinkAdd k, Action.playCall true]) ∧
    mapFind k (addClient st k v).1.clients = some v ∧
    k ∈ (addClient st k v).1.sink ∧
    paired (addClient st k v).1 := by
  refine ⟨?_, ?_, ?_, paired_add st k v (paired_reachable st h)⟩
  · unfold addClient
    by_cases hc : (mapInsert k v st.clients).length = 1 <;> simp [hc]
  · rw [add_clients_eq]
    exact mapFind_insert_self k v st.clients
  · rw [add_sink_eq]
    unfold sinkInsert
    by_cases hm : k ∈ st.sink <;> simp [hm]

/-- C9, witness: registering client 1 into the initial state keeps the
registry and the fan-out sink paired. -/
theorem add_client_pairing_at_play_witness :
    paired (addClient initModel 1 10).1 :=
  (add_client_pairing_at_play initModel 1 10 ⟨[], rfl⟩).2.2.2

end GstSoup
